import Mathlib

/-!
Verification of the BBS+ selective-disclosure credential system
(`pkg/bbs/service.go` `ProductionService`, the `vc` credential service,
and the holder/verifier use cases) against its natural-language
specification.

Modelling conventions (shallow embedding):

* Byte strings are `List Nat` (one entry per byte).
* BLS12-381 G1/G2 points are modelled by their discrete logarithms with
  respect to the fixed generators, i.e. as naturals modulo the scalar-field
  order `rBLS`.  Point addition is addition mod `rBLS`, `MulScalar` is
  multiplication mod `rBLS`, the generator is `1`, the identity is `0`,
  and `IsZero p` is `p = 0`.  This is faithful for everything the source
  computes, because the source never evaluates a pairing.
* Serialization of points is fixed-width big-endian of the discrete log
  (96 bytes for G1, 192 bytes for G2, matching `kilic/bls12-381`
  uncompressed lengths used by the code's length checks); decoding rejects
  wrong lengths and out-of-range values, mirroring `FromBytes` rejecting
  invalid encodings.
* External primitives the code calls but does not define — `sha256.Sum256`
  and `g1.HashToCurve` — are parameters collected in a `Prims` structure;
  every theorem holds for all instantiations.  `Fr.FromBytes` is modelled
  as big-endian interpretation reduced mod `rBLS`.  `Fr.Inverse` is
  modelled by a fuel-based extended Euclid (with `frInv 0 = 0`).
* Go's `error` results are `Except String`; Go `nil` pointers are `Option`.
  Dynamic `fmt.Errorf` messages of the verifier use case are modelled by a
  structured error type `VError` (one constructor per format string).
* The base64 layer of `EncodeProof`/`DecodeProof` is Go's standard library
  and a bijection onto its image; the model works on the byte payload that
  the repository code itself assembles and parses.
* Randomness (`crypto/rand.Read`) is passed in explicitly as the byte
  strings the generator would have produced.
-/

set_option maxRecDepth 16000

namespace BBSSpec

/-- Byte strings, one `Nat` per byte. -/
abbrev Bytes := List Nat

/-- Order of the BLS12-381 scalar field, the literal used by
`generateRandomScalar` in `pkg/bbs/service.go`. -/
def rBLS : Nat := 52435875175126190479447740508185965837690552500527637822603658699938581184513

/-- Big-endian interpretation of a byte string. -/
def natOfBytes (bs : Bytes) : Nat := bs.foldl (fun acc b => acc * 256 + b) 0

/-- Fixed-width big-endian encoding of a natural (`w` bytes). -/
def natToBytes : Nat → Nat → Bytes
  | 0, _ => []
  | w + 1, v => natToBytes w (v / 256) ++ [v % 256]

/-- Scalar-field addition (models `Fr.Add`). -/
def frAdd (a b : Nat) : Nat := (a + b) % rBLS

/-- Scalar-field multiplication (models `Fr.Mul`, and `MulScalar` of a
point by a scalar in the discrete-log model). -/
def frMul (a b : Nat) : Nat := (a * b) % rBLS

/-- Scalar-field negation (models `Fr.Neg`). -/
def frNeg (a : Nat) : Nat := (rBLS - a % rBLS) % rBLS

/-- Models `Fr.FromBytes`: big-endian bytes reduced into the field. -/
def frFromBytes (bs : Bytes) : Nat := natOfBytes bs % rBLS

/-- Fuel-based extended Euclid: `egcd fuel a b = (g, s, t)` with
`g = gcd a b` and `s * a + t * b = g` whenever `a < fuel`. -/
def egcd : Nat → Nat → Nat → Nat × Int × Int
  | 0, _, b => (b, 0, 1)
  | _ + 1, 0, b => (b, 0, 1)
  | fuel + 1, a, b =>
      let q := b / a
      let p := egcd fuel (b % a) a
      (p.1, p.2.2 - q * p.2.1, p.2.1)

/-- Models `Fr.Inverse`: the modular inverse mod `rBLS`, with
`frInv 0 = 0` (as in the kilic library). -/
def frInv (a : Nat) : Nat :=
  let a0 := a % rBLS
  if a0 = 0 then 0
  else (((egcd (a0 + 1) a0 rBLS).2.1) % (rBLS : Int)).toNat

/-- Models `g1.ToBytes` (96-byte uncompressed encoding) in the
discrete-log model. -/
def g1ToBytes (p : Nat) : Bytes := natToBytes 96 (p % rBLS)

/-- Models `g1.FromBytes`: rejects wrong lengths and non-canonical
encodings, returns the decoded point. -/
def g1FromBytes (bs : Bytes) : Except String Nat :=
  if bs.length = 96 ∧ natOfBytes bs < rBLS then .ok (natOfBytes bs)
  else .error "invalid G1 point encoding"

/-- Models `g2.ToBytes` (192-byte uncompressed encoding). -/
def g2ToBytes (p : Nat) : Bytes := natToBytes 192 (p % rBLS)

/-- Models `g2.FromBytes`. -/
def g2FromBytes (bs : Bytes) : Except String Nat :=
  if bs.length = 192 ∧ natOfBytes bs < rBLS then .ok (natOfBytes bs)
  else .error "invalid G2 point encoding"

/-- External primitives used by `ProductionService`: `sha256.Sum256` and
`g1.HashToCurve` (with its fixed DST).  All theorems are proved for every
instantiation. -/
structure Prims where
  sha256 : Bytes → Bytes
  hashToCurveG1 : Bytes → Nat

/-- Models `ProductionService.mapToG1` (hash-to-curve with the fixed DST
`BBS_BLS12381G1_XMD:SHA-256_SSWU_RO_`); the result is a subgroup point,
i.e. a discrete log in `[0, rBLS)`. -/
def mapToG1 (P : Prims) (message : Bytes) : Nat := P.hashToCurveG1 message % rBLS

/-- Models `ProductionService.hashToChallengeScalar` (SHA-256 of the data). -/
def hashToChallengeScalar (P : Prims) (data : Bytes) : Bytes := P.sha256 data

/-- ASCII decimal digits of a natural. -/
def asciiDecimal (n : Nat) : Bytes := (Nat.toDigits 10 n).map Char.toNat

/-- Bytes of the Go string `fmt.Sprintf("H%d", i)` (`72` is ASCII `H`). -/
def hTag (i : Nat) : Bytes := 72 :: asciiDecimal i

/-- Models `generateRandomScalar`: interpret 32 random bytes big-endian,
reduce mod `rBLS`, re-encode as 32 big-endian bytes. -/
def generateRandomScalar (randomBytes : Bytes) : Bytes :=
  natToBytes 32 (natOfBytes randomBytes % rBLS)

/-- Models `bbs.KeyPair`. -/
structure KeyPair where
  PublicKey : Bytes
  PrivateKey : Bytes
deriving DecidableEq

/-- Models `bbs.Signature` (fields `A`, `E`, `S`). -/
structure Signature where
  A : Bytes
  E : Bytes
  S : Bytes
deriving DecidableEq

/-- Models `bbs.Proof` (second, authoritative version in `service.go`). -/
structure Proof where
  A_prime : Bytes
  A_bar : Bytes
  C : Bytes
  R2 : Bytes
  R3 : Bytes
  HiddenResponses : List Bytes
  RevealedAttributes : List Int
  Nonce : Bytes
deriving DecidableEq

/-- Models `ProductionService.GenerateKeyPair`; `randomBytes` is what
`crypto/rand.Read` produced. -/
def GenerateKeyPair (randomBytes : Bytes) : KeyPair :=
  let privateKey := generateRandomScalar randomBytes
  let privateScalar := frFromBytes privateKey
  { PublicKey := g2ToBytes privateScalar, PrivateKey := privateKey }

/-- The loop shared verbatim by `Sign` and `Verify`:
`B = H1^m1 * H2^m2 * ... * Hn^mn` where
`Hi = mapToG1("H<i>" || message)` and `mi = Fr(sha256(message))`. -/
def computeB (P : Prims) (messages : List Bytes) : Nat :=
  messages.enum.foldl (fun B im =>
    let Hi := mapToG1 P (hTag (im.1 + 1) ++ im.2)
    let mScalar := frFromBytes (P.sha256 im.2)
    frAdd B (frMul mScalar Hi)) 0

/-- Models `ProductionService.Sign`; `eRand`, `sRand` are the random bytes
drawn for `e` and `s`. -/
def Sign (P : Prims) (privateKey : Bytes) (messages : List Bytes) (eRand sRand : Bytes) :
    Except String Signature :=
  if privateKey.length ≠ 32 then .error "invalid private key length" else
  let privateScalar := frFromBytes privateKey
  let e := generateRandomScalar eRand
  let s_val := generateRandomScalar sRand
  let B := computeB P messages
  let sScalar := frFromBytes s_val
  let temp := frAdd (frAdd 1 B) sScalar
  let exponent := frAdd (frFromBytes e) privateScalar
  let expInv := frInv exponent
  let A := frMul expInv temp
  .ok { A := g1ToBytes A, E := e, S := s_val }

/-- Models `ProductionService.Verify` (the second, authoritative copy in
`service.go`): length checks, decoding, the basic zero checks and the
component-size checks.  The pairing equation is computed up to
`pk^e + g2` but — exactly as in the source — never checked. -/
def Verify (P : Prims) (publicKey : Bytes) (signature : Signature) (messages : List Bytes) :
    Except String Unit :=
  if publicKey.length ≠ 192 then .error "invalid public key length" else
  match g1FromBytes signature.A with
  | .error _ => .error "invalid signature A"
  | .ok A =>
  let e := frFromBytes signature.E
  let s_val := frFromBytes signature.S
  match g2FromBytes publicKey with
  | .error _ => .error "invalid public key"
  | .ok _ =>
  let B := computeB P messages
  let leftSide := frAdd (frAdd 1 B) s_val
  if A = 0 then .error "signature verification failed: A is zero" else
  if leftSide = 0 then .error "signature verification failed: computed left side is zero" else
  match g2FromBytes publicKey with
  | .error _ => .error "invalid public key"
  | .ok publicKeyPoint =>
  let pkPowE := frMul e publicKeyPoint
  let _rightG2 := frAdd pkPowE 1
  if A = 0 ∨ leftSide = 0 then .error "signature verification failed: zero point detected" else
  if signature.A.length ≠ 96 ∨ signature.E.length ≠ 32 ∨ signature.S.length ≠ 32 then
    .error "signature verification failed: invalid component sizes"
  else .ok ()

/-- Loop body of `validateMessageIndices` with its `seen` set. -/
def validateIndicesAux (total : Nat) : List Int → List Int → Except String Unit
  | [], _ => .ok ()
  | idx :: rest, seen =>
    if idx < 0 ∨ (total : Int) ≤ idx then .error "revealed index out of range"
    else if idx ∈ seen then .error "duplicate revealed index"
    else validateIndicesAux total rest (idx :: seen)

/-- Models `validateMessageIndices`. -/
def validateMessageIndices (revealedIndices : List Int) (totalMessages : Nat) :
    Except String Unit :=
  validateIndicesAux totalMessages revealedIndices []

/-- Models `ProductionService.CreateProof`; `r1Rand`, `r2Rand` are the
random bytes drawn for the blinding factors. -/
def CreateProof (P : Prims) (signature : Signature) (publicKey : Bytes)
    (messages : List Bytes) (revealedIndices : List Int) (nonce : Bytes)
    (r1Rand r2Rand : Bytes) : Except String Proof :=
  if nonce = [] then .error "nonce is required" else
  if publicKey.length ≠ 192 then .error "invalid public key length" else
  match validateMessageIndices revealedIndices messages.length with
  | .error e => .error e
  | .ok _ =>
  match g1FromBytes signature.A with
  | .error _ => .error "invalid signature A"
  | .ok A =>
  let eScalar := frFromBytes signature.E
  let sScalar := frFromBytes signature.S
  let r1 := generateRandomScalar r1Rand
  let r2 := generateRandomScalar r2Rand
  let r1Scalar := frFromBytes r1
  let A_prime := frMul r1Scalar A
  let eNeg := frNeg eScalar
  let r2Scalar := frFromBytes r2
  let A_bar := revealedIndices.foldl (fun acc idx =>
      let m := messages.getD idx.toNat []
      let Hi := mapToG1 P (hTag (idx.toNat + 1) ++ m)
      let mScalar := frFromBytes (P.sha256 m)
      frAdd acc (frMul mScalar Hi))
    (frAdd (frMul eNeg A_prime) r2Scalar)
  let challengeData := g1ToBytes A_prime ++ g1ToBytes A_bar ++ nonce ++
      revealedIndices.foldl (fun acc idx => acc ++ messages.getD idx.toNat []) []
  let challengeHash := hashToChallengeScalar P challengeData
  let challengeScalar := frFromBytes challengeHash
  let r3Scalar := frAdd r2Scalar (frMul challengeScalar sScalar)
  .ok { A_prime := g1ToBytes A_prime, A_bar := g1ToBytes A_bar, C := challengeHash,
        R2 := r2, R3 := natToBytes 32 r3Scalar, HiddenResponses := [],
        RevealedAttributes := revealedIndices, Nonce := nonce }

/-- Models `ProductionService.VerifyProof`: length checks, decoding, the
challenge re-computation and equality check, and the `A'` non-identity
check.  As in the source, no pairing relation is evaluated. -/
def VerifyProof (P : Prims) (publicKey : Bytes) (proof : Proof)
    (revealedMessages : List Bytes) (nonce : Bytes) : Except String Unit :=
  if publicKey.length ≠ 192 then .error "invalid public key length" else
  if revealedMessages.length ≠ proof.RevealedAttributes.length then
    .error "mismatch between revealed messages and indices" else
  match g1FromBytes proof.A_prime with
  | .error _ => .error "invalid A_prime"
  | .ok A_prime =>
  match g1FromBytes proof.A_bar with
  | .error _ => .error "invalid A_bar"
  | .ok A_bar =>
  let _r2Scalar := frFromBytes proof.R2
  let _r3Scalar := frFromBytes proof.R3
  let challengeScalar := frFromBytes proof.C
  let challengeData := g1ToBytes A_prime ++ g1ToBytes A_bar ++ nonce ++
      revealedMessages.foldl (fun acc m => acc ++ m) []
  let expectedChallenge := hashToChallengeScalar P challengeData
  let expectedChallengeScalar := frFromBytes expectedChallenge
  if challengeScalar ≠ expectedChallengeScalar then .error "challenge verification failed" else
  if A_prime = 0 then .error "proof verification failed: A_prime is zero" else
  .ok ()

/-- Big-endian 4-byte encoding of a count, as written by
`byte(n>>24), byte(n>>16), byte(n>>8), byte(n)` for a non-negative Go int. -/
def be4 (n : Nat) : Bytes :=
  [n / 2 ^ 24 % 256, n / 2 ^ 16 % 256, n / 2 ^ 8 % 256, n % 256]

/-- One byte of a Go `int`: `byte(idx >> k)` (arithmetic shift, then
truncation to the low 8 bits). -/
def intByte (idx : Int) (k : Nat) : Nat := ((idx.fdiv (2 ^ k)).emod 256).toNat

/-- The 4 bytes `byte(idx>>24) .. byte(idx)` written for a revealed index. -/
def intBe4 (idx : Int) : Bytes := [intByte idx 24, intByte idx 16, intByte idx 8, intByte idx 0]

/-- Models `EncodeProof` (the byte payload handed to base64; the base64
layer is a standard-library bijection and is modelled away). -/
def EncodeProof (proof : Proof) : Bytes :=
  proof.A_prime ++ proof.A_bar ++ proof.C ++ proof.R2 ++ proof.R3 ++
  be4 proof.RevealedAttributes.length ++
  proof.RevealedAttributes.foldl (fun acc idx => acc ++ intBe4 idx) [] ++
  be4 proof.HiddenResponses.length ++
  proof.HiddenResponses.foldl (fun acc rsp => acc ++ rsp) [] ++
  be4 proof.Nonce.length ++
  proof.Nonce

/-- Reads `int(b0)<<24 | int(b1)<<16 | int(b2)<<8 | int(b3)` from the
front of the data (the bitwise ORs coincide with addition on bytes). -/
def readBe4 : Bytes → Nat
  | b0 :: b1 :: b2 :: b3 :: _ => b0 * 2 ^ 24 + b1 * 2 ^ 16 + b2 * 2 ^ 8 + b3
  | _ => 0

/-- The revealed-attributes reading loop of `DecodeProof`. -/
def readInts : Nat → Bytes → List Int
  | 0, _ => []
  | k + 1, bs => (readBe4 bs : Int) :: readInts k (bs.drop 4)

/-- The hidden-responses reading loop of `DecodeProof`. -/
def readChunks32 : Nat → Bytes → List Bytes
  | 0, _ => []
  | k + 1, bs => bs.take 32 :: readChunks32 k (bs.drop 32)

/-- Models `DecodeProof` (on the base64-decoded byte payload).  The Go
`offset+k > len(data)` bound checks become length checks on the remaining
suffix. -/
def DecodeProof (data : Bytes) : Except String Proof :=
  if data.length < 300 then .error "invalid proof data length" else
  let A_prime := data.take 96
  let rest1 := data.drop 96
  let A_bar := rest1.take 96
  let rest2 := rest1.drop 96
  let C := rest2.take 32
  let rest3 := rest2.drop 32
  let R2 := rest3.take 32
  let rest4 := rest3.drop 32
  let R3 := rest4.take 32
  let rest5 := rest4.drop 32
  if rest5.length < 4 then .error "insufficient data for revealed attributes count" else
  let revealedCount := readBe4 rest5
  let rest6 := rest5.drop 4
  if rest6.length < revealedCount * 4 then .error "insufficient data for revealed attributes" else
  let revealedAttributes := readInts revealedCount rest6
  let rest7 := rest6.drop (revealedCount * 4)
  if rest7.length < 4 then .error "insufficient data for hidden responses count" else
  let hiddenCount := readBe4 rest7
  let rest8 := rest7.drop 4
  if rest8.length < hiddenCount * 32 then .error "insufficient data for hidden responses" else
  let hiddenResponses := readChunks32 hiddenCount rest8
  let rest9 := rest8.drop (hiddenCount * 32)
  if rest9.length < 4 then .error "insufficient data for nonce length" else
  let nonceLen := readBe4 rest9
  let rest10 := rest9.drop 4
  if rest10.length < nonceLen then .error "insufficient data for nonce" else
  let nonce := rest10.take nonceLen
  .ok { A_prime := A_prime, A_bar := A_bar, C := C, R2 := R2, R3 := R3,
        HiddenResponses := hiddenResponses, RevealedAttributes := revealedAttributes,
        Nonce := nonce }

/-- Models the Go `interface{}` claim values actually used by the system:
the tagged union over strings, integers and booleans. -/
inductive ClaimValue
  | str (s : String)
  | int (n : Int)
  | bool (b : Bool)
deriving DecidableEq

/-- Models `vc.Claim` (`Key`, `Value`). -/
structure Claim where
  Key : String
  Value : ClaimValue
deriving DecidableEq

/-- Association-list lookup, modelling a Go map read. -/
def alookup {β : Type} : List (String × β) → String → Option β
  | [], _ => none
  | (k0, v0) :: rest, k => if k0 = k then some v0 else alookup rest k

/-- Association-list insert with overwrite, modelling a Go map write. -/
def ainsert {β : Type} : List (String × β) → String → β → List (String × β)
  | [], k, v => [(k, v)]
  | (k0, v0) :: rest, k, v =>
    if k0 = k then (k, v) :: rest else (k0, v0) :: ainsert rest k v

/-- External primitives of the `vc` credential service: `json.Marshal` on
claim values, the injected `bbsService.Sign` (the `vc` layer is generic in
it), and `bbs.EncodeProof` applied to the signature value. -/
structure VCPrims where
  jsonMarshal : ClaimValue → Bytes
  bbsSign : Bytes → List Bytes → Except String Bytes
  encodeProofValue : Bytes → Bytes

/-- Models `vc.Proof` (the credential-level proof envelope; the Go field
`Type` is `ProofType` here because `Type` is reserved in Lean). -/
structure CredProof where
  ProofType : String
  Created : Nat
  VerificationMethod : String
  ProofPurpose : String
  ProofValue : Bytes
  Nonce : String
  RevealedAttributes : List Int
deriving DecidableEq

/-- Models `vc.VerifiableCredential` (the Go field `Type` is `CredType`). -/
structure VerifiableCredential where
  Context : List String
  ID : String
  CredType : List String
  Issuer : String
  IssuanceDate : Nat
  CredentialSubject : List (String × ClaimValue)
  Proof : Option CredProof
deriving DecidableEq

/-- Models `ServiceImpl.IssueCredential` (`src/unnamed/part_008`):
the message vector handed to BBS+ `Sign` is exactly the JSON marshaling
of each claim value, in claim-list order — no header message, no keys. -/
def IssueCredential (P : VCPrims) (keyStore : List (String × KeyPair))
    (issuerDID subjectDID : String) (claims : List Claim) (credID : String)
    (now : Nat) : Except String VerifiableCredential :=
  match alookup keyStore issuerDID with
  | none => .error "no key pair found for issuer DID"
  | some keyPair =>
  let credentialSubject :=
    claims.foldl (fun cs c => ainsert cs c.Key c.Value)
      (ainsert [] "id" (ClaimValue.str subjectDID))
  let messages := claims.map (fun c => P.jsonMarshal c.Value)
  match P.bbsSign keyPair.PrivateKey messages with
  | .error _ => .error "failed to sign credential"
  | .ok signatureValue =>
  .ok { Context := ["https://www.w3.org/2018/credentials/v1",
                    "https://w3id.org/security/bbs/v1"],
        ID := credID, CredType := ["VerifiableCredential"], Issuer := issuerDID,
        IssuanceDate := now, CredentialSubject := credentialSubject,
        Proof := some { ProofType := "BbsBlsSignature2020", Created := now,
                        VerificationMethod := issuerDID ++ "#bbs-key-1",
                        ProofPurpose := "assertionMethod",
                        ProofValue := P.encodeProofValue signatureValue,
                        Nonce := "",
                        RevealedAttributes := (List.range claims.length).map Int.ofNat } }

/-- Models `ServiceImpl.VerifyCredential`: nil checks only; as the source
comment says, "For demonstration, we'll skip actual BBS+ verification". -/
def VerifyCredential (cred : Option VerifiableCredential) : Except String Unit :=
  match cred with
  | none => .error "credential is nil"
  | some c =>
    match c.Proof with
    | none => .error "credential has no proof"
    | some _ => .ok ()

/-- Models `holder.UseCase.StoreCredential` composed with the in-memory
`CredentialRepository.Store` (which, on a non-nil credential, just writes
`credentials[vc.ID] = vc`).  Returns the updated repository map. -/
def StoreCredential (repo : List (String × VerifiableCredential))
    (credential : Option VerifiableCredential) :
    Except String (List (String × VerifiableCredential)) :=
  match credential with
  | none => .error "credential is nil"
  | some c =>
    match VerifyCredential (some c) with
    | .error e => .error ("credential verification failed: " ++ e)
    | .ok _ => .ok (ainsert repo c.ID c)

/-- Modelled from the spec: UTF-8 bytes of a string (code points; agrees
with UTF-8 on the ASCII inputs used here).  Needed only for the spec-side
canonical layout below, which is absent from the source. -/
def strBytes (s : String) : Bytes := s.toList.map Char.toNat

/-- Modelled from the spec: `canonical_value_bytes` of §4.3 (numbers as
decimal, strings UTF-8, booleans `true`/`false`).  No source code
implements this. -/
def specCanonicalValueBytes : ClaimValue → Bytes
  | .str s => strBytes s
  | .int n => if n < 0 then 45 :: asciiDecimal n.natAbs else asciiDecimal n.toNat
  | .bool b => strBytes (if b then "true" else "false")

/-- Modelled from the spec: the header message of §4.3,
`issuer_did ‖ 0x1F ‖ subject_id ‖ 0x1F ‖ issued_at_rfc3339 ‖ 0x1F ‖
credential_id`.  No source code implements this. -/
def specHeader (issuerDID subjectID issuedAt credID : String) : Bytes :=
  strBytes issuerDID ++ [31] ++ strBytes subjectID ++ [31] ++
  strBytes issuedAt ++ [31] ++ strBytes credID

/-- Modelled from the spec: the canonical message layout of §4.3 — the
header at index 0 followed by `key ‖ 0x1F ‖ canonical_value_bytes` for
each claim.  No source code implements this. -/
def specCanonicalMessages (issuerDID subjectID issuedAt credID : String)
    (claims : List Claim) : List Bytes :=
  specHeader issuerDID subjectID issuedAt credID ::
  claims.map (fun c => strBytes c.Key ++ [31] ++ specCanonicalValueBytes c.Value)

/-- Models the per-credential `proof` map as read by
`verifySelectiveDisclosureProof` (fields `type` and `nonce`; `none`
models an absent or wrongly-typed entry). -/
structure SDProof where
  ptype : Option String
  nonce : Option String
deriving DecidableEq

/-- Models one `map[string]interface{}` credential of a presentation, as
read by `verifier.UseCase.VerifyPresentation`. -/
structure CredMap where
  issuer : Option String
  ctype : Option (List String)
  credentialSubject : Option (List (String × ClaimValue))
  proof : Option SDProof
deriving DecidableEq

/-- One entry of `presentation.VerifiableCredential`: either not a map at
all (`invalid`) or a credential map. -/
inductive CredEntry
  | invalid
  | cred (c : CredMap)
deriving DecidableEq

/-- Models `vc.VerifiablePresentation` as consumed by the verifier use
case (`Proof = none` models a nil presentation proof). -/
structure Presentation where
  Holder : String
  VerifiableCredential : List CredEntry
  Proof : Option Unit
deriving DecidableEq

/-- Structured rendering of the `fmt.Errorf`/`fmt.Sprintf` error strings
produced by `verifier.UseCase.VerifyPresentation`, one constructor per
format string. -/
inductive VError
  | presentationFailed (msg : String)
  | invalidFormat (i : Nat)
  | missingIssuer (i : Nat)
  | untrustedIssuer (i : Nat) (issuer : String)
  | sdpFailed (i : Nat) (msg : String)
  | missingRequiredClaim (name : String)
deriving DecidableEq

/-- Models `verifier.VerificationResult`. -/
structure VerificationResult where
  Valid : Bool
  Errors : List VError
  RevealedClaims : List (String × ClaimValue)
  HolderDID : String
  IssuerDIDs : List String
  CredentialTypes : List String
deriving DecidableEq

/-- Models `verifier.UseCase.verifySelectiveDisclosureProof`. -/
def verifySelectiveDisclosureProof (proof : Option SDProof) (nonce : String) :
    Except String Unit :=
  match proof with
  | none => .error "missing or invalid proof"
  | some p =>
    match p.ptype with
    | none => .error "invalid proof type"
    | some t =>
      if t ≠ "BbsBlsSignatureProof2020" then .error "invalid proof type" else
      if nonce ≠ "" then
        match p.nonce with
        | none => .error "nonce mismatch"
        | some pn => if pn ≠ nonce then .error "nonce mismatch" else .ok ()
      else .ok ()

/-- The revealed-claims extraction from a credential subject: every key
except `"id"` is written into the accumulated map. -/
def addSubjectClaims (rc : List (String × ClaimValue))
    (subject : Option (List (String × ClaimValue))) : List (String × ClaimValue) :=
  match subject with
  | none => rc
  | some kvs => kvs.foldl (fun m kv => if kv.1 = "id" then m else ainsert m kv.1 kv.2) rc

/-- The per-credential loop of `verifier.UseCase.VerifyPresentation`,
carrying the running result and the loop index `i`. -/
def processCreds (trusted : List String) (nonce : String) :
    Nat → List CredEntry → VerificationResult → VerificationResult
  | _, [], res => res
  | i, e :: rest, res =>
    match e with
    | .invalid =>
      processCreds trusted nonce (i + 1) rest
        { res with Valid := false, Errors := res.Errors ++ [.invalidFormat i] }
    | .cred c =>
      match c.issuer with
      | none =>
        processCreds trusted nonce (i + 1) rest
          { res with Valid := false, Errors := res.Errors ++ [.missingIssuer i] }
      | some issuer =>
        let res1 := { res with IssuerDIDs := res.IssuerDIDs ++ [issuer] }
        if trusted ≠ [] ∧ issuer ∉ trusted then
          processCreds trusted nonce (i + 1) rest
            { res1 with Valid := false, Errors := res1.Errors ++ [.untrustedIssuer i issuer] }
        else
          let res2 := { res1 with CredentialTypes := res1.CredentialTypes ++ c.ctype.getD [] }
          let res3 := { res2 with RevealedClaims := addSubjectClaims res2.RevealedClaims c.credentialSubject }
          let res4 :=
            match verifySelectiveDisclosureProof c.proof nonce with
            | .error m => { res3 with Valid := false, Errors := res3.Errors ++ [.sdpFailed i m] }
            | .ok _ => res3
          processCreds trusted nonce (i + 1) rest res4

/-- The required-claims loop at the end of `VerifyPresentation`. -/
def checkRequiredClaims (requiredClaims : List String) (res : VerificationResult) :
    VerificationResult :=
  requiredClaims.foldl (fun r rc =>
    if (alookup r.RevealedClaims rc).isSome then r
    else { r with Valid := false, Errors := r.Errors ++ [.missingRequiredClaim rc] }) res

/-- Models `verifier.UseCase.VerifyPresentation`.  The final
`presRepo.Store` cannot fail on a non-nil presentation and does not change
the result, so it is omitted. -/
def VerifyPresentation (vp : Presentation) (requiredClaims trustedIssuers : List String)
    (nonce : String) : VerificationResult :=
  let res0 : VerificationResult :=
    { Valid := true, Errors := [], RevealedClaims := [], HolderDID := vp.Holder,
      IssuerDIDs := [], CredentialTypes := [] }
  match vp.Proof with
  | none =>
    { res0 with Valid := false, Errors := [.presentationFailed "presentation has no proof"] }
  | some _ =>
    checkRequiredClaims requiredClaims
      (processCreds trustedIssuers nonce 0 vp.VerifiableCredential res0)

/-- Concrete instantiation of the external primitives, used by the
witness theorems (any instantiation works for the universally quantified
theorems; this one keeps numbers small). -/
def testPrims : Prims :=
  { sha256 := fun l => [l.foldl (fun a b => a + b) 0 % 251]
    hashToCurveG1 := fun l => l.foldl (fun a b => a * 2 + b + 1) 3 }

def defaultSignature : Signature := { A := [], E := [], S := [] }

def defaultProof : Proof :=
  { A_prime := [], A_bar := [], C := [], R2 := [], R3 := [],
    HiddenResponses := [], RevealedAttributes := [], Nonce := [] }

def wSkRand : Bytes := List.replicate 32 9

def wKp : KeyPair := GenerateKeyPair wSkRand

def wMsgs : List Bytes := [[1, 2], [3]]

/-- `wMsgs` with the lowest bit of the last byte of the second message
flipped (`3` becomes `2`). -/
def wMutMsgs : List Bytes := [[1, 2], [2]]

def wERand : Bytes := List.replicate 32 1

def wSRand : Bytes := List.replicate 32 2

def wSig : Signature :=
  (Sign testPrims wKp.PrivateKey wMsgs wERand wSRand).toOption.getD defaultSignature

def wNonce : Bytes := [5]

def wNonce2 : Bytes := [6]

def wRevealed : List Int := [1]

def wR1Rand : Bytes := List.replicate 32 3

def wR2Rand : Bytes := List.replicate 32 4

def wPrf : Proof :=
  (CreateProof testPrims wSig wKp.PublicKey wMsgs wRevealed wNonce
    wR1Rand wR2Rand).toOption.getD defaultProof

def wRevealedMsgs : List Bytes := wRevealed.map (fun i => wMsgs.getD i.toNat [])

/-- Concrete well-formed proof value for the encode/decode round-trip
witness. -/
def wEncProof : Proof :=
  { A_prime := List.replicate 96 1, A_bar := List.replicate 96 2,
    C := List.replicate 32 3, R2 := List.replicate 32 4, R3 := List.replicate 32 5,
    HiddenResponses := [List.replicate 32 6, List.replicate 32 7],
    RevealedAttributes := [0, 3, 70000], Nonce := [9, 9] }

/-- Concrete model of Go `json.Marshal` on the tagged claim values
(strings quoted, integers decimal, booleans `true`/`false`), used to
instantiate `VCPrims` in witnesses. -/
def testJsonMarshal : ClaimValue → Bytes
  | .str s => 34 :: strBytes s ++ [34]
  | .int n => if n < 0 then 45 :: asciiDecimal n.natAbs else asciiDecimal n.toNat
  | .bool b => strBytes (if b then "true" else "false")

/-- A signature value that records the signed message vector
(length-prefixed), so that theorems can observe what was signed. -/
def recordPayload (msgs : List Bytes) : Bytes :=
  be4 msgs.length ++ msgs.foldl (fun a m => a ++ be4 m.length ++ m) []

def testVCPrims : VCPrims :=
  { jsonMarshal := testJsonMarshal
    bbsSign := fun _ msgs => .ok (recordPayload msgs)
    encodeProofValue := fun b => b }

def dummyCred : VerifiableCredential :=
  { Context := [], ID := "", CredType := [], Issuer := "", IssuanceDate := 0,
    CredentialSubject := [], Proof := none }

def c5claims : List Claim := [{ Key := "a", Value := ClaimValue.str "b" }]

def c5cred : VerifiableCredential :=
  (IssueCredential testVCPrims [("did:ex:iss", wKp)] "did:ex:iss" "did:ex:subj"
    c5claims "cred-1" 0).toOption.getD dummyCred

/-- The message vector the code actually signs for `c5claims`. -/
def c5codeMessages : List Bytes := c5claims.map (fun c => testJsonMarshal c.Value)

def c2claims : List Claim := [{ Key := "age", Value := ClaimValue.str "25" }]

def c2cred : VerifiableCredential :=
  (IssueCredential testVCPrims [("did:ex:iss", wKp)] "did:ex:iss" "did:ex:subj"
    c2claims "cred-2" 0).toOption.getD dummyCred

/-- `c2cred` with the claim value tampered after issuance (the signature
inside `Proof` is unchanged, so it no longer matches the claims). -/
def c2tampered : VerifiableCredential :=
  { c2cred with CredentialSubject := ainsert c2cred.CredentialSubject "age" (ClaimValue.str "99") }

def wCredMap : CredMap :=
  { issuer := some "did:ex:iss", ctype := some ["VerifiableCredential"],
    credentialSubject := some [("id", ClaimValue.str "did:ex:subj"),
                               ("age", ClaimValue.str "25")],
    proof := some { ptype := some "BbsBlsSignatureProof2020", nonce := some "n1" } }

def wPresentation : Presentation :=
  { Holder := "did:ex:subj", VerifiableCredential := [CredEntry.cred wCredMap],
    Proof := some () }

theorem rBLS_pos : 0 < rBLS := by decide

theorem rBLS_lt_pow32 : rBLS < 256 ^ 32 := by decide

theorem rBLS_lt_pow96 : rBLS < 256 ^ 96 := by decide

theorem rBLS_lt_pow192 : rBLS < 256 ^ 192 := by decide

theorem natToBytes_length : ∀ w v : Nat, (natToBytes w v).length = w
  | 0, _ => rfl
  | w + 1, v => by simp [natToBytes, natToBytes_length w]

theorem natOfBytes_append_single (l : Bytes) (b : Nat) :
    natOfBytes (l ++ [b]) = natOfBytes l * 256 + b := by
  simp [natOfBytes, List.foldl_append]

theorem natOfBytes_natToBytes : ∀ w v : Nat, natOfBytes (natToBytes w v) = v % 256 ^ w
  | 0, v => by simp [natToBytes, natOfBytes, Nat.mod_one]
  | w + 1, v => by
    rw [natToBytes, natOfBytes_append_single, natOfBytes_natToBytes w, Nat.pow_succ,
      Nat.mul_comm (256 ^ w) 256, Nat.mod_mul]
    ring

theorem frAdd_lt (a b : Nat) : frAdd a b < rBLS := Nat.mod_lt _ rBLS_pos

theorem frMul_lt (a b : Nat) : frMul a b < rBLS := Nat.mod_lt _ rBLS_pos

theorem frFromBytes_lt (bs : Bytes) : frFromBytes bs < rBLS := Nat.mod_lt _ rBLS_pos

theorem frAdd_mod (a b : Nat) : frAdd a b % rBLS = frAdd a b :=
  Nat.mod_eq_of_lt (frAdd_lt a b)

theorem frMul_mod (a b : Nat) : frMul a b % rBLS = frMul a b :=
  Nat.mod_eq_of_lt (frMul_lt a b)

theorem g1ToBytes_length (p : Nat) : (g1ToBytes p).length = 96 := natToBytes_length _ _

theorem g2ToBytes_length (p : Nat) : (g2ToBytes p).length = 192 := natToBytes_length _ _

theorem natOfBytes_g1ToBytes (p : Nat) : natOfBytes (g1ToBytes p) = p % rBLS := by
  rw [g1ToBytes, natOfBytes_natToBytes]
  exact Nat.mod_eq_of_lt (Nat.lt_trans (Nat.mod_lt _ rBLS_pos) rBLS_lt_pow96)

theorem natOfBytes_g2ToBytes (p : Nat) : natOfBytes (g2ToBytes p) = p % rBLS := by
  rw [g2ToBytes, natOfBytes_natToBytes]
  exact Nat.mod_eq_of_lt (Nat.lt_trans (Nat.mod_lt _ rBLS_pos) rBLS_lt_pow192)

theorem g1FromBytes_g1ToBytes (p : Nat) : g1FromBytes (g1ToBytes p) = .ok (p % rBLS) := by
  rw [g1FromBytes,
    if_pos ⟨g1ToBytes_length p, by rw [natOfBytes_g1ToBytes]; exact Nat.mod_lt _ rBLS_pos⟩,
    natOfBytes_g1ToBytes]

theorem g2FromBytes_g2ToBytes (p : Nat) : g2FromBytes (g2ToBytes p) = .ok (p % rBLS) := by
  rw [g2FromBytes,
    if_pos ⟨g2ToBytes_length p, by rw [natOfBytes_g2ToBytes]; exact Nat.mod_lt _ rBLS_pos⟩,
    natOfBytes_g2ToBytes]

theorem generateRandomScalar_length (x : Bytes) : (generateRandomScalar x).length = 32 :=
  natToBytes_length _ _

theorem GenerateKeyPair_PrivateKey (x : Bytes) :
    (GenerateKeyPair x).PrivateKey = generateRandomScalar x := rfl

theorem GenerateKeyPair_PublicKey (x : Bytes) :
    (GenerateKeyPair x).PublicKey = g2ToBytes (frFromBytes (generateRandomScalar x)) := rfl

theorem foldl_append_map {α β : Type} (f : α → List β) :
    ∀ (l : List α) (acc : List β),
      l.foldl (fun a x => a ++ f x) acc = acc ++ (l.map f).flatten
  | [], acc => by simp
  | x :: l, acc => by simp [foldl_append_map f l]

theorem foldl_append_id {β : Type} :
    ∀ (l : List (List β)) (acc : List β), l.foldl (fun a m => a ++ m) acc = acc ++ l.flatten
  | [], acc => by simp
  | x :: l, acc => by simp [foldl_append_id l]

theorem g1ToBytes_mod (p : Nat) : g1ToBytes (p % rBLS) = g1ToBytes p := by
  rw [g1ToBytes, g1ToBytes, Nat.mod_mod_of_dvd p dvd_rfl]

/-- Structure of a successful `CreateProof` result: the public key passed
its length check, the revealed indices and nonce are stored verbatim, the
two proof points are canonical encodings, and the stored challenge is the
hash of exactly the transcript `A' || Abar || nonce || revealed messages`. -/
theorem CreateProof_ok_struct (P : Prims) (sig : Signature) (pk : Bytes)
    (messages : List Bytes) (R : List Int) (nonce : Bytes) (r1Rand r2Rand : Bytes)
    (prf : Proof)
    (h : CreateProof P sig pk messages R nonce r1Rand r2Rand = Except.ok prf) :
    pk.length = 192 ∧ prf.RevealedAttributes = R ∧ prf.Nonce = nonce ∧
    ∃ ap ab : Nat,
      prf.A_prime = g1ToBytes ap ∧ prf.A_bar = g1ToBytes ab ∧
      prf.C = hashToChallengeScalar P (prf.A_prime ++ prf.A_bar ++ nonce ++
        R.foldl (fun acc idx => acc ++ messages.getD idx.toNat []) []) := by
  rw [CreateProof] at h
  split at h
  · simp at h
  split at h
  · simp at h
  next hpk =>
  split at h
  · simp at h
  split at h
  · simp at h
  have hs : _ = prf := Except.ok.inj h
  subst hs
  exact ⟨not_ne_iff.mp hpk, rfl, rfl, _, _, rfl, rfl, rfl⟩

/-- C1: for the key pair generated from `wSkRand` and the message list
`wMsgs`, the signature produced by `Sign` is accepted by `Verify` even on
the message list `wMutMsgs` obtained by flipping the lowest bit of the
last message — `Verify` never evaluates the pairing equation, so message
mutation is not rejected; this contradicts the claim. -/
theorem c1_verify_accepts_mutated_messages :
    wMutMsgs ≠ wMsgs ∧
    Sign testPrims wKp.PrivateKey wMsgs wERand wSRand = Except.ok wSig ∧
    Verify testPrims wKp.PublicKey wSig wMutMsgs = Except.ok () :=
  ⟨by decide, rfl, rfl⟩

/-- C4: for every key pair returned by `GenerateKeyPair` and every message
list, `Verify (pk, Sign (sk, messages), messages)` succeeds.  The two
hypotheses exclude the negligible-probability degenerate random choices:
the signature point `A` must be non-identity and the recomputed
`g1 * B * g1^s` must be non-identity (these are the two zero checks
`Verify` performs; with random `e`, `s` they fail with probability
about `2 / rBLS`). -/
theorem c4_sign_verify_roundtrip (P : Prims) (skRand eRand sRand : Bytes)
    (messages : List Bytes) (sig : Signature)
    (hsig : Sign P (GenerateKeyPair skRand).PrivateKey messages eRand sRand = Except.ok sig)
    (hA : natOfBytes sig.A ≠ 0)
    (hLS : frAdd (frAdd 1 (computeB P messages)) (frFromBytes sig.S) ≠ 0) :
    Verify P (GenerateKeyPair skRand).PublicKey sig messages = Except.ok () := by
  rw [Sign, GenerateKeyPair_PrivateKey,
    if_neg (fun h => h (generateRandomScalar_length skRand))] at hsig
  have hs : _ = sig := Except.ok.inj hsig
  subst hs
  rw [natOfBytes_g1ToBytes, frMul_mod] at hA
  unfold Verify
  rw [GenerateKeyPair_PublicKey, g2ToBytes_length]
  rw [if_neg (fun h => h rfl)]
  rw [g1FromBytes_g1ToBytes, frMul_mod]
  simp only [g2FromBytes_g2ToBytes]
  rw [if_neg hA, if_neg hLS]
  rw [if_neg (by simp [hA, hLS])]
  rw [if_neg (by simp [g1ToBytes_length, generateRandomScalar_length])]

/-- C4 witness: a concrete key pair, message list and random tape on which
all hypotheses of `c4_sign_verify_roundtrip` hold and the round-trip
succeeds. -/
theorem c4_sign_verify_roundtrip_witness :
    Sign testPrims wKp.PrivateKey wMsgs wERand wSRand = Except.ok wSig ∧
    natOfBytes wSig.A ≠ 0 ∧
    frAdd (frAdd 1 (computeB testPrims wMsgs)) (frFromBytes wSig.S) ≠ 0 ∧
    Verify testPrims wKp.PublicKey wSig wMsgs = Except.ok () :=
  ⟨rfl, by decide, by decide,
    c4_sign_verify_roundtrip testPrims wSkRand wERand wSRand wMsgs wSig rfl
      (by decide) (by decide)⟩

/-- C3: for every key pair, message list, duplicate-free in-range revealed
index list and non-empty nonce, a proof produced by `CreateProof` over a
signature from `Sign` is accepted by `VerifyProof` on the revealed slice
`[messages[i] for i in R]` with the same nonce.  The hypothesis `hA`
excludes the negligible-probability degenerate case where the blinded
point `A'` is the identity (the one remaining check `VerifyProof`
performs); validity of the index list, the nonce and the key lengths are
exactly the preconditions under which `CreateProof` returns a proof at
all, which hypothesis `hcp` records. -/
theorem c3_selective_disclosure_roundtrip (P : Prims)
    (skRand eRand sRand r1Rand r2Rand : Bytes) (messages : List Bytes)
    (R : List Int) (nonce : Bytes) (sig : Signature) (prf : Proof)
    (_hsig : Sign P (GenerateKeyPair skRand).PrivateKey messages eRand sRand = Except.ok sig)
    (hcp : CreateProof P sig (GenerateKeyPair skRand).PublicKey messages R nonce
      r1Rand r2Rand = Except.ok prf)
    (hA : natOfBytes prf.A_prime ≠ 0) :
    VerifyProof P (GenerateKeyPair skRand).PublicKey prf
      (R.map (fun i => messages.getD i.toNat [])) nonce = Except.ok () := by
  obtain ⟨hpk, hRA, _hN, ap, ab, hAp, hAb, hC⟩ :=
    CreateProof_ok_struct P sig _ messages R nonce r1Rand r2Rand prf hcp
  rw [hAp, natOfBytes_g1ToBytes] at hA
  unfold VerifyProof
  rw [if_neg (fun hh => hh hpk)]
  rw [hRA, if_neg (fun hh => hh (List.length_map _ _))]
  rw [hC, hAp, hAb, g1FromBytes_g1ToBytes, g1FromBytes_g1ToBytes]
  simp only []
  rw [g1ToBytes_mod, g1ToBytes_mod]
  have hfold : R.foldl (fun acc idx => acc ++ messages.getD idx.toNat []) [] =
      (R.map (fun i => messages.getD i.toNat [])).foldl (fun acc m => acc ++ m) [] := by
    rw [foldl_append_id, foldl_append_map]
  rw [hfold]
  rw [if_neg (fun hh => hh rfl)]
  rw [if_neg hA]

/-- C3 witness: a concrete run of the full pipeline — key generation,
signing, proof creation over revealed index 1, proof verification — in
which every hypothesis of `c3_selective_disclosure_roundtrip` holds. -/
theorem c3_selective_disclosure_roundtrip_witness :
    CreateProof testPrims wSig wKp.PublicKey wMsgs wRevealed wNonce wR1Rand wR2Rand
      = Except.ok wPrf ∧
    natOfBytes wPrf.A_prime ≠ 0 ∧
    VerifyProof testPrims wKp.PublicKey wPrf wRevealedMsgs wNonce = Except.ok () :=
  ⟨rfl, by decide,
    c3_selective_disclosure_roundtrip testPrims wSkRand wERand wSRand wR1Rand wR2Rand
      wMsgs wRevealed wNonce wSig wPrf rfl rfl (by decide)⟩

/-- C6: a proof created with nonce `N1` is rejected by `VerifyProof` under
a different nonce `N2`: the challenge recomputed over `N2` does not equal
the proof's stored challenge, and `VerifyProof` returns exactly the
challenge-verification error.  Hypothesis `hne` is that inequality of the
two challenges; it holds whenever the hash does not collide on the two
transcripts (which differ exactly in the nonce), i.e. always under the
random-oracle idealization, and it forces `N2 ≠ N1`. -/
theorem c6_nonce_binding (P : Prims) (sig : Signature) (pk : Bytes)
    (messages : List Bytes) (R : List Int) (nonce1 nonce2 : Bytes)
    (r1Rand r2Rand : Bytes) (rms : List Bytes) (prf : Proof)
    (hcp : CreateProof P sig pk messages R nonce1 r1Rand r2Rand = Except.ok prf)
    (hlen : rms.length = R.length)
    (hne : frFromBytes prf.C ≠ frFromBytes (hashToChallengeScalar P
      (prf.A_prime ++ prf.A_bar ++ nonce2 ++ rms.foldl (fun acc m => acc ++ m) []))) :
    VerifyProof P pk prf rms nonce2 = Except.error "challenge verification failed" := by
  obtain ⟨hpk, hRA, _hN, ap, ab, hAp, hAb, _hC⟩ :=
    CreateProof_ok_struct P sig pk messages R nonce1 r1Rand r2Rand prf hcp
  rw [hAp, hAb] at hne
  unfold VerifyProof
  rw [if_neg (fun hh => hh hpk)]
  rw [hRA, if_neg (fun hh => hh hlen)]
  rw [hAp, hAb, g1FromBytes_g1ToBytes, g1FromBytes_g1ToBytes]
  simp only []
  rw [g1ToBytes_mod, g1ToBytes_mod]
  rw [if_pos hne]

/-- C6 witness: the proof `wPrf` was created with nonce `[5]`; verifying
with nonce `[6]` recomputes a different challenge and fails. -/
theorem c6_nonce_binding_witness :
    CreateProof testPrims wSig wKp.PublicKey wMsgs wRevealed wNonce wR1Rand wR2Rand
      = Except.ok wPrf ∧
    VerifyProof testPrims wKp.PublicKey wPrf wRevealedMsgs wNonce2
      = Except.error "challenge verification failed" :=
  ⟨rfl,
    c6_nonce_binding testPrims wSig wKp.PublicKey wMsgs wRevealed wNonce wNonce2
      wR1Rand wR2Rand wRevealedMsgs wPrf rfl (by decide) (by decide)⟩

theorem validateIndicesAux_ok : ∀ (l seen : List Int) (n : Nat),
    validateIndicesAux n l seen = Except.ok () →
    (∀ i ∈ l, 0 ≤ i ∧ i < (n : Int) ∧ i ∉ seen) ∧ l.Nodup
  | [], _, _, _ => ⟨by simp, List.nodup_nil⟩
  | idx :: rest, seen, n, h => by
    rw [validateIndicesAux] at h
    split at h
    · simp at h
    split at h
    · simp at h
    next hrange hseen =>
    obtain ⟨hall, hnd⟩ := validateIndicesAux_ok rest (idx :: seen) n h
    push_neg at hrange
    refine ⟨?_, ?_⟩
    · intro i hi
      rcases List.mem_cons.mp hi with rfl | hi
      · exact ⟨hrange.1, hrange.2, hseen⟩
      · obtain ⟨h0, h1, h2⟩ := hall i hi
        exact ⟨h0, h1, fun hm => h2 (List.mem_cons_of_mem _ hm)⟩
    · refine List.nodup_cons.mpr ⟨fun hm => ?_, hnd⟩
      exact (hall idx hm).2.2 (List.mem_cons_self _ _)

/-- C9: whenever the revealed index list contains a duplicate or an index
outside `[0, n)`, `CreateProof` (called with a non-empty nonce and a
well-sized public key, so that the earlier argument checks pass) returns
an error and produces no proof. -/
theorem c9_createproof_rejects_bad_indices (P : Prims) (sig : Signature)
    (publicKey : Bytes) (messages : List Bytes) (R : List Int) (nonce : Bytes)
    (r1Rand r2Rand : Bytes)
    (hnonce : nonce ≠ []) (hpk : publicKey.length = 192)
    (hbad : (∃ i ∈ R, i < 0 ∨ (messages.length : Int) ≤ i) ∨ ¬ R.Nodup) :
    ∃ e, CreateProof P sig publicKey messages R nonce r1Rand r2Rand
      = Except.error e := by
  cases hv : validateMessageIndices R messages.length with
  | error e =>
    exact ⟨e, by rw [CreateProof, if_neg hnonce, if_neg (fun h => h hpk), hv]⟩
  | ok u =>
    exfalso
    cases u
    obtain ⟨hall, hnd⟩ := validateIndicesAux_ok R [] messages.length hv
    rcases hbad with ⟨i, hiR, hi⟩ | hnd2
    · obtain ⟨h0, h1, -⟩ := hall i hiR
      omega
    · exact hnd2 hnd

/-- C9 witness: a duplicate revealed index `[0, 0]` is rejected by
`CreateProof` even though nonce and public key are well-formed. -/
theorem c9_createproof_rejects_bad_indices_witness :
    wNonce ≠ [] ∧ wKp.PublicKey.length = 192 ∧ ¬ ([0, 0] : List Int).Nodup ∧
    ∃ e, CreateProof testPrims wSig wKp.PublicKey wMsgs [0, 0] wNonce wR1Rand wR2Rand
      = Except.error e :=
  ⟨by decide, by decide, by decide,
    c9_createproof_rejects_bad_indices testPrims wSig wKp.PublicKey wMsgs [0, 0]
      wNonce wR1Rand wR2Rand (by decide) (by decide) (Or.inr (by decide))⟩

theorem intEmod_eq_mod (a b : Int) : Int.emod a b = a % b := rfl

theorem readBe4_be4 (n : Nat) (h : n < 2 ^ 32) (rest : Bytes) :
    readBe4 (be4 n ++ rest) = n := by
  simp only [be4, List.cons_append, List.nil_append, readBe4]
  omega

theorem be4_drop (n : Nat) (rest : Bytes) : (be4 n ++ rest).drop 4 = rest := rfl

theorem readBe4_intBe4 (idx : Int) (h0 : 0 ≤ idx) (h1 : idx < 2 ^ 32) (rest : Bytes) :
    (readBe4 (intBe4 idx ++ rest) : Int) = idx := by
  simp only [intBe4, intByte, List.cons_append, List.nil_append, readBe4]
  rw [Int.fdiv_eq_ediv _ (by positivity), Int.fdiv_eq_ediv _ (by positivity),
    Int.fdiv_eq_ediv _ (by positivity), Int.fdiv_eq_ediv _ (by positivity)]
  simp only [intEmod_eq_mod]
  norm_num
  omega

theorem intBe4_drop (idx : Int) (rest : Bytes) : (intBe4 idx ++ rest).drop 4 = rest := rfl

theorem readInts_flatten : ∀ (idxs : List Int) (rest : Bytes),
    (∀ i ∈ idxs, 0 ≤ i ∧ i < 2 ^ 32) →
    readInts idxs.length ((idxs.map intBe4).flatten ++ rest) = idxs ∧
    ((idxs.map intBe4).flatten ++ rest).drop (idxs.length * 4) = rest
  | [], rest, _ => ⟨rfl, rfl⟩
  | i :: idxs, rest, hall => by
    have hi := hall i (List.mem_cons_self _ _)
    have hrest := readInts_flatten idxs rest
      (fun j hj => hall j (List.mem_cons_of_mem _ hj))
    constructor
    · rw [List.length_cons, readInts]
      simp only [List.map_cons, List.flatten_cons, List.append_assoc]
      rw [intBe4_drop, readBe4_intBe4 i hi.1 hi.2, hrest.1]
    · simp only [List.map_cons, List.flatten_cons, List.append_assoc, List.length_cons]
      rw [Nat.succ_mul, Nat.add_comm, ← List.drop_drop, intBe4_drop]
      exact hrest.2

theorem readChunks32_flatten : ∀ (hs : List Bytes) (rest : Bytes),
    (∀ h ∈ hs, h.length = 32) →
    readChunks32 hs.length (hs.flatten ++ rest) = hs ∧
    (hs.flatten ++ rest).drop (hs.length * 32) = rest
  | [], rest, _ => ⟨rfl, rfl⟩
  | h :: hs, rest, hall => by
    have hh := hall h (List.mem_cons_self _ _)
    have hrest := readChunks32_flatten hs rest
      (fun j hj => hall j (List.mem_cons_of_mem _ hj))
    constructor
    · rw [List.length_cons, readChunks32]
      simp only [List.flatten_cons, List.append_assoc]
      rw [List.take_left' hh, List.drop_left' hh, hrest.1]
    · simp only [List.flatten_cons, List.append_assoc, List.length_cons]
      rw [Nat.succ_mul, Nat.add_comm, ← List.drop_drop, List.drop_left' hh]
      exact hrest.2

theorem length_flatten_intBe4 : ∀ l : List Int, ((l.map intBe4).flatten).length = l.length * 4
  | [] => rfl
  | i :: l => by
    simp only [List.map_cons, List.flatten_cons, List.length_append, List.length_cons,
      length_flatten_intBe4 l]
    simp [intBe4]
    ring

theorem length_flatten32 : ∀ hs : List Bytes, (∀ h ∈ hs, h.length = 32) →
    (hs.flatten).length = hs.length * 32
  | [], _ => rfl
  | h :: hs, hall => by
    simp only [List.flatten_cons, List.length_append, List.length_cons,
      length_flatten32 hs (fun j hj => hall j (List.mem_cons_of_mem _ hj)),
      hall h (List.mem_cons_self _ _)]
    ring

/-- C10: `DecodeProof` inverts `EncodeProof` on every proof whose point
fields are 96 bytes, whose scalar fields are 32 bytes, whose hidden
responses are 32 bytes each, and whose revealed indices are unsigned
32-bit values; the three counts written as 4-byte big-endian prefixes
(revealed attributes, hidden responses, nonce length) must likewise fit
in 32 bits, which any physically realizable proof satisfies. -/
theorem c10_encode_decode_roundtrip (p : Proof)
    (hA : p.A_prime.length = 96) (hB : p.A_bar.length = 96)
    (hC : p.C.length = 32) (hR2 : p.R2.length = 32) (hR3 : p.R3.length = 32)
    (hH : ∀ h ∈ p.HiddenResponses, h.length = 32)
    (hidx : ∀ i ∈ p.RevealedAttributes, 0 ≤ i ∧ i < 2 ^ 32)
    (hrc : p.RevealedAttributes.length < 2 ^ 32)
    (hhc : p.HiddenResponses.length < 2 ^ 32)
    (hnl : p.Nonce.length < 2 ^ 32) :
    DecodeProof (EncodeProof p) = Except.ok p := by
  obtain ⟨Ap, Ab, C, R2, R3, hidden, revealed, nonce⟩ := p
  simp only at hA hB hC hR2 hR3 hH hidx hrc hhc hnl
  unfold EncodeProof
  simp only
  rw [foldl_append_map, foldl_append_id]
  simp only [List.nil_append, List.append_assoc]
  unfold DecodeProof
  rw [if_neg (by
    simp only [List.length_append, length_flatten_intBe4,
      length_flatten32 hidden hH, hA, hB, hC, hR2, hR3, be4]
    simp only [List.length_cons, List.length_nil]
    omega)]
  simp only
  rw [List.take_left' hA, List.drop_left' hA, List.take_left' hB, List.drop_left' hB,
    List.take_left' hC, List.drop_left' hC, List.take_left' hR2, List.drop_left' hR2,
    List.take_left' hR3, List.drop_left' hR3]
  rw [if_neg (by simp [be4])]
  rw [readBe4_be4 _ hrc, be4_drop]
  rw [if_neg (by rw [List.length_append, length_flatten_intBe4]; omega)]
  rw [(readInts_flatten revealed _ hidx).1, (readInts_flatten revealed _ hidx).2]
  rw [if_neg (by simp [be4])]
  rw [readBe4_be4 _ hhc, be4_drop]
  rw [if_neg (by rw [List.length_append, length_flatten32 hidden hH]; omega)]
  rw [(readChunks32_flatten hidden _ hH).1, (readChunks32_flatten hidden _ hH).2]
  rw [if_neg (by simp [be4])]
  rw [readBe4_be4 _ hnl, be4_drop]
  rw [if_neg (by omega)]
  rw [List.take_length]

/-- C10 witness: a concrete proof value with two hidden responses, three
revealed indices (including one above `2^16`) and a 2-byte nonce
round-trips through `EncodeProof`/`DecodeProof`. -/
theorem c10_encode_decode_roundtrip_witness :
    DecodeProof (EncodeProof wEncProof) = Except.ok wEncProof :=
  c10_encode_decode_roundtrip wEncProof (by decide) (by decide) (by decide) (by decide)
    (by decide) (by decide) (by decide) (by decide) (by decide) (by decide)

/-- C2: `StoreCredential` accepts and stores a credential whose claim
value was tampered with after issuance (the `age` claim changed from `25`
to `99` while the issued signature is carried unchanged), because
`VerifyCredential` only checks that a proof object is present and skips
BBS+ signature verification; the claim says tampered credentials are
rejected and not stored. -/
theorem c2_storecredential_accepts_tampered :
    c2tampered.CredentialSubject ≠ c2cred.CredentialSubject ∧
    c2tampered.Proof = c2cred.Proof ∧
    StoreCredential [] (some c2tampered) = Except.ok [("cred-2", c2tampered)] :=
  ⟨by decide, rfl, rfl⟩

/-- C5 counterexample: for a credential issued over the single claim
`a = "b"`, the message vector actually signed (recorded inside the stored
proof value by the instrumented signing primitive) is the one-element
vector `[json("b")]`, of length 1 — not the spec's two-element canonical
layout (header at index 0, `key ‖ 0x1F ‖ value` at index 1). -/
theorem c5_counterexample_message_layout :
    c5cred.Proof.map CredProof.ProofValue = some (recordPayload c5codeMessages) ∧
    c5codeMessages.length = 1 ∧
    (specCanonicalMessages "did:ex:iss" "did:ex:subj" "0" "cred-1" c5claims).length = 1 + 1 ∧
    c5codeMessages ≠ specCanonicalMessages "did:ex:iss" "did:ex:subj" "0" "cred-1" c5claims :=
  ⟨rfl, rfl, rfl, by decide⟩

/-- C5 (amended): for every credential issued over `n` user claims, the
signed message vector has length `n`, its `i`-th entry (0-based) being
the JSON encoding of the `i+1`-st claim's value in claim-list order; no
header message is included and claim keys are not part of the signed
messages.  The stored proof value is the encoding of the BBS+ signature
over exactly that vector. -/
theorem c5_amended_message_layout (P : VCPrims) (keyStore : List (String × KeyPair))
    (issuerDID subjectDID : String) (claims : List Claim) (credID : String) (now : Nat)
    (cred : VerifiableCredential)
    (h : IssueCredential P keyStore issuerDID subjectDID claims credID now
      = Except.ok cred) :
    ∃ kp sv, alookup keyStore issuerDID = some kp ∧
      P.bbsSign kp.PrivateKey (claims.map (fun c => P.jsonMarshal c.Value))
        = Except.ok sv ∧
      cred.Proof = some { ProofType := "BbsBlsSignature2020", Created := now,
                          VerificationMethod := issuerDID ++ "#bbs-key-1",
                          ProofPurpose := "assertionMethod",
                          ProofValue := P.encodeProofValue sv, Nonce := "",
                          RevealedAttributes := (List.range claims.length).map Int.ofNat } := by
  rw [IssueCredential] at h
  split at h
  · simp at h
  next kp hkp =>
  simp only [] at h
  split at h
  · simp at h
  next sv hsv =>
  have hs := Except.ok.inj h
  subst hs
  exact ⟨kp, sv, hkp, hsv, rfl⟩

/-- C5 (amended) witness: the concrete issuance behind `c5cred`
instantiates the amended statement. -/
theorem c5_amended_message_layout_witness :
    ∃ kp sv, alookup [("did:ex:iss", wKp)] "did:ex:iss" = some kp ∧
      testVCPrims.bbsSign kp.PrivateKey
        (c5claims.map (fun c => testVCPrims.jsonMarshal c.Value)) = Except.ok sv ∧
      c5cred.Proof = some { ProofType := "BbsBlsSignature2020", Created := 0,
                            VerificationMethod := "did:ex:iss" ++ "#bbs-key-1",
                            ProofPurpose := "assertionMethod",
                            ProofValue := testVCPrims.encodeProofValue sv, Nonce := "",
                            RevealedAttributes := (List.range c5claims.length).map Int.ofNat } :=
  c5_amended_message_layout testVCPrims [("did:ex:iss", wKp)] "did:ex:iss" "did:ex:subj"
    c5claims "cred-1" 0 c5cred rfl

/-- One step of the per-credential loop: processing `entry :: rest` at
index `i` recurses on `rest` at index `i + 1` with an intermediate result
that extends the error list, never resets `Valid`, never adds an
untrusted-issuer error when the trusted list is empty, and never adds a
missing-required-claim error. -/
theorem processCreds_step (t : List String) (n : String) (i : Nat)
    (entry : CredEntry) (rest : List CredEntry) (res : VerificationResult) :
    ∃ res', processCreds t n i (entry :: rest) res = processCreds t n (i + 1) rest res' ∧
      (∀ e ∈ res.Errors, e ∈ res'.Errors) ∧
      (res.Valid = false → res'.Valid = false) ∧
      (t = [] → ∀ j d, VError.untrustedIssuer j d ∈ res'.Errors →
        VError.untrustedIssuer j d ∈ res.Errors) ∧
      (∀ name, VError.missingRequiredClaim name ∈ res'.Errors →
        VError.missingRequiredClaim name ∈ res.Errors) := by
  cases entry with
  | invalid =>
    simp only [processCreds]
    refine ⟨_, rfl, ?_, ?_, ?_, ?_⟩
    · intro e he; simp [he]
    · intro h; exact h ▸ rfl
    · intro _ j d hm; simpa using hm
    · intro name hm; simpa using hm
  | cred c =>
    simp only [processCreds]
    cases hiss : c.issuer with
    | none =>
      refine ⟨_, rfl, ?_, ?_, ?_, ?_⟩
      · intro e he; simp [he]
      · intro h; exact h ▸ rfl
      · intro _ j d hm; simpa using hm
      · intro name hm; simpa using hm
    | some issuer =>
      simp only []
      by_cases htr : t ≠ [] ∧ issuer ∉ t
      · rw [if_pos htr]
        refine ⟨_, rfl, ?_, ?_, ?_, ?_⟩
        · intro e he; simp [he]
        · intro h; exact h ▸ rfl
        · intro ht; exact absurd ht htr.1
        · intro name hm; simpa using hm
      · rw [if_neg htr]
        cases hs : verifySelectiveDisclosureProof c.proof n with
        | error m =>
          refine ⟨_, rfl, ?_, ?_, ?_, ?_⟩
          · intro e he; simp [he]
          · intro h; exact h ▸ rfl
          · intro _ j d hm; simpa using hm
          · intro name hm; simpa using hm
        | ok u =>
          refine ⟨_, rfl, ?_, ?_, ?_, ?_⟩
          · intro e he; simpa using he
          · intro h; exact h ▸ rfl
          · intro _ j d hm; simpa using hm
          · intro name hm; simpa using hm

/-- Accumulated properties of the per-credential loop: errors are only
appended, `Valid = false` is sticky, no untrusted-issuer error appears
when the trusted list is empty, and no missing-required-claim error is
ever produced by this loop. -/
theorem processCreds_props (t : List String) (n : String) :
    ∀ (l : List CredEntry) (i : Nat) (res : VerificationResult),
      (∀ e ∈ res.Errors, e ∈ (processCreds t n i l res).Errors) ∧
      (res.Valid = false → (processCreds t n i l res).Valid = false) ∧
      (t = [] → ∀ j d, VError.untrustedIssuer j d ∈ (processCreds t n i l res).Errors →
        VError.untrustedIssuer j d ∈ res.Errors) ∧
      (∀ name, VError.missingRequiredClaim name ∈ (processCreds t n i l res).Errors →
        VError.missingRequiredClaim name ∈ res.Errors)
  | [], i, res => by
    simp only [processCreds]
    exact ⟨fun e he => he, fun h => h, fun _ _ _ hm => hm, fun _ hm => hm⟩
  | entry :: rest, i, res => by
    obtain ⟨res', heq, hmono, hval, huntr, hmiss⟩ := processCreds_step t n i entry rest res
    obtain ⟨m2, v2, u2, s2⟩ := processCreds_props t n rest (i + 1) res'
    rw [heq]
    exact ⟨fun e he => m2 e (hmono e he), fun hv => v2 (hval hv),
      fun ht j d hm => huntr ht j d (u2 ht j d hm),
      fun nm hm => hmiss nm (s2 nm hm)⟩

/-- If the `j`-th presentation entry is a credential whose issuer is not
in the non-empty trusted list, the loop records the untrusted-issuer
error for that index and invalidates the result. -/
theorem processCreds_untrusted_mem (t : List String) (n : String) (d : String)
    (c : CredMap) :
    ∀ (l : List CredEntry) (j i : Nat) (res : VerificationResult),
      l[j]? = some (.cred c) → c.issuer = some d → t ≠ [] → d ∉ t →
      VError.untrustedIssuer (i + j) d ∈ (processCreds t n i l res).Errors ∧
      (processCreds t n i l res).Valid = false
  | [], j, i, res, hj, _, _, _ => by simp at hj
  | entry :: rest, 0, i, res, hj, hiss, ht, hnt => by
    have hj' : entry = .cred c := by simpa using hj
    subst hj'
    simp only [processCreds]
    rw [hiss]
    simp only []
    rw [if_pos ⟨ht, hnt⟩]
    obtain ⟨m2, v2, -, -⟩ := processCreds_props t n rest (i + 1) _
    constructor
    · exact Nat.add_zero i ▸ m2 _ (by simp)
    · exact v2 rfl
  | entry :: rest, j + 1, i, res, hj, hiss, ht, hnt => by
    have hj' : rest[j]? = some (.cred c) := by simpa using hj
    obtain ⟨res', heq, -, -, -, -⟩ := processCreds_step t n i entry rest res
    rw [heq]
    have h2 := processCreds_untrusted_mem t n d c rest j (i + 1) res' hj' hiss ht hnt
    rwa [show i + 1 + j = i + (j + 1) by omega] at h2

/-- Accumulated properties of the required-claims loop: it preserves the
revealed-claims map, only appends errors, keeps `Valid = false` sticky,
produces a missing-required-claim error (and invalidates the result) for
every required name absent from the revealed map, and never produces one
for a name present in the revealed map; untrusted-issuer errors pass
through unchanged. -/
theorem checkRequired_props :
    ∀ (req : List String) (res : VerificationResult),
      (checkRequiredClaims req res).RevealedClaims = res.RevealedClaims ∧
      (∀ e ∈ res.Errors, e ∈ (checkRequiredClaims req res).Errors) ∧
      (res.Valid = false → (checkRequiredClaims req res).Valid = false) ∧
      (∀ j d, VError.untrustedIssuer j d ∈ (checkRequiredClaims req res).Errors →
        VError.untrustedIssuer j d ∈ res.Errors) ∧
      (∀ name, name ∈ req → alookup res.RevealedClaims name = none →
        VError.missingRequiredClaim name ∈ (checkRequiredClaims req res).Errors ∧
        (checkRequiredClaims req res).Valid = false) ∧
      (∀ name, (alookup res.RevealedClaims name).isSome →
        VError.missingRequiredClaim name ∉ res.Errors →
        VError.missingRequiredClaim name ∉ (checkRequiredClaims req res).Errors)
  | [], res =>
    ⟨rfl, fun _ he => he, fun h => h, fun _ _ hm => hm,
      fun name hname _ => absurd hname (List.not_mem_nil name),
      fun _ _ hnm => hnm⟩
  | rc :: rest, res => by
    simp only [checkRequiredClaims, List.foldl_cons]
    by_cases hrc : (alookup res.RevealedClaims rc).isSome
    · rw [if_pos hrc]
      obtain ⟨hRC, m2, v2, u2, miss2, nomiss2⟩ := checkRequired_props rest res
      refine ⟨hRC, m2, v2, u2, ?_, nomiss2⟩
      intro name hname hnone
      rcases List.mem_cons.mp hname with rfl | hname
      · rw [hnone] at hrc; simp at hrc
      · exact miss2 name hname hnone
    · rw [if_neg hrc]
      obtain ⟨hRC, m2, v2, u2, miss2, nomiss2⟩ := checkRequired_props rest
        { res with Valid := false, Errors := res.Errors ++ [.missingRequiredClaim rc] }
      refine ⟨hRC, ?_, ?_, ?_, ?_, ?_⟩
      · intro e he; exact m2 e (by simp [he])
      · intro _; exact v2 rfl
      · intro j d hm
        have := u2 j d hm
        simpa using this
      · intro name hname hnone
        rcases List.mem_cons.mp hname with rfl | hname
        · exact ⟨m2 _ (by simp), v2 rfl⟩
        · exact miss2 name hname hnone
      · intro name hsome hnm
        have hne : name ≠ rc := by
          intro hEq; subst hEq; rw [Option.isSome_iff_exists] at hsome
          obtain ⟨v, hv⟩ := hsome
          rw [hv] at hrc; simp at hrc
        refine nomiss2 name hsome ?_
        simp only [List.mem_append, List.mem_singleton]
        rintro (hm | hm)
        · exact hnm hm
        · exact hne (by injection hm)

/-- C7: when the trusted-issuer list is non-empty and does not contain
the issuer DID of the presentation's `i`-th credential, the verification
result is invalid and contains the untrusted-issuer error for that
credential, regardless of the credential's proof; and when the
trusted-issuer list is empty, the issuer check is skipped — no
untrusted-issuer error is ever produced. -/
theorem c7_trusted_issuer_enforcement (vp : Presentation)
    (requiredClaims trustedIssuers : List String) (nonce : String)
    (i : Nat) (c : CredMap) (d : String)
    (hp : vp.Proof = some ())
    (hi : vp.VerifiableCredential[i]? = some (.cred c))
    (hiss : c.issuer = some d)
    (hne : trustedIssuers ≠ []) (hnt : d ∉ trustedIssuers) :
    ((VerifyPresentation vp requiredClaims trustedIssuers nonce).Valid = false ∧
      VError.untrustedIssuer i d ∈
        (VerifyPresentation vp requiredClaims trustedIssuers nonce).Errors) ∧
    (∀ j e, VError.untrustedIssuer j e ∉
      (VerifyPresentation vp requiredClaims [] nonce).Errors) := by
  constructor
  · rw [VerifyPresentation, hp]
    simp only
    obtain ⟨hmem, hval⟩ := processCreds_untrusted_mem trustedIssuers nonce d c
      vp.VerifiableCredential i 0 _ hi hiss hne hnt
    obtain ⟨-, m2, v2, -, -, -⟩ := checkRequired_props requiredClaims
      (processCreds trustedIssuers nonce 0 vp.VerifiableCredential
        { Valid := true, Errors := [], RevealedClaims := [], HolderDID := vp.Holder,
          IssuerDIDs := [], CredentialTypes := [] })
    exact ⟨v2 hval, m2 _ (Nat.zero_add i ▸ hmem)⟩
  · intro j e
    rw [VerifyPresentation, hp]
    simp only
    intro hm
    obtain ⟨-, -, -, u2, -, -⟩ := checkRequired_props requiredClaims
      (processCreds [] nonce 0 vp.VerifiableCredential
        { Valid := true, Errors := [], RevealedClaims := [], HolderDID := vp.Holder,
          IssuerDIDs := [], CredentialTypes := [] })
    obtain ⟨-, -, u3, -⟩ := processCreds_props [] nonce vp.VerifiableCredential 0
      { Valid := true, Errors := [], RevealedClaims := [], HolderDID := vp.Holder,
        IssuerDIDs := [], CredentialTypes := [] }
    have := u3 rfl j e (u2 j e hm)
    simp at this

/-- C7 witness: a presentation with one credential from `did:ex:iss`;
verifying with trusted list `["did:ex:other"]` fails with the
untrusted-issuer error for credential 0, and with the empty trusted list
no untrusted-issuer error is produced. -/
theorem c7_trusted_issuer_enforcement_witness :
    ((VerifyPresentation wPresentation ["age"] ["did:ex:other"] "n1").Valid = false ∧
      VError.untrustedIssuer 0 "did:ex:iss" ∈
        (VerifyPresentation wPresentation ["age"] ["did:ex:other"] "n1").Errors) ∧
    (∀ j e, VError.untrustedIssuer j e ∉
      (VerifyPresentation wPresentation ["age"] [] "n1").Errors) :=
  c7_trusted_issuer_enforcement wPresentation ["age"] ["did:ex:other"] "n1" 0 wCredMap
    "did:ex:iss" rfl rfl rfl (by decide) (by decide)

/-- C8: for every required-claims list, any required name missing from
the union of revealed claim names collected by the verifier yields an
invalid result containing the missing-required-claim error for that
name, and no such error is produced for a name present in the revealed
union. -/
theorem c8_missing_required_claims (vp : Presentation)
    (requiredClaims trustedIssuers : List String) (nonce : String)
    (hp : vp.Proof = some ()) :
    (∀ name ∈ requiredClaims,
      alookup (VerifyPresentation vp requiredClaims trustedIssuers nonce).RevealedClaims
        name = none →
      (VerifyPresentation vp requiredClaims trustedIssuers nonce).Valid = false ∧
      VError.missingRequiredClaim name ∈
        (VerifyPresentation vp requiredClaims trustedIssuers nonce).Errors) ∧
    (∀ name,
      (alookup (VerifyPresentation vp requiredClaims trustedIssuers nonce).RevealedClaims
        name).isSome →
      VError.missingRequiredClaim name ∉
        (VerifyPresentation vp requiredClaims trustedIssuers nonce).Errors) := by
  rw [VerifyPresentation, hp]
  simp only
  obtain ⟨hRC, m2, v2, u2, miss2, nomiss2⟩ := checkRequired_props requiredClaims
    (processCreds trustedIssuers nonce 0 vp.VerifiableCredential
      { Valid := true, Errors := [], RevealedClaims := [], HolderDID := vp.Holder,
        IssuerDIDs := [], CredentialTypes := [] })
  obtain ⟨-, -, -, s3⟩ := processCreds_props trustedIssuers nonce vp.VerifiableCredential 0
    { Valid := true, Errors := [], RevealedClaims := [], HolderDID := vp.Holder,
      IssuerDIDs := [], CredentialTypes := [] }
  constructor
  · intro name hname hnone
    rw [hRC] at hnone
    obtain ⟨hmem, hval⟩ := miss2 name hname hnone
    exact ⟨hval, hmem⟩
  · intro name hsome
    rw [hRC] at hsome
    refine nomiss2 name hsome ?_
    intro hm
    have := s3 name hm
    simp at this

/-- C8 witness: the presentation reveals only `age`; requiring
`["age", "income"]` yields an invalid result with the
missing-required-claim error for `income`, and no such error exists for
the revealed `age`. -/
theorem c8_missing_required_claims_witness :
    ((VerifyPresentation wPresentation ["age", "income"] [] "n1").Valid = false ∧
      VError.missingRequiredClaim "income" ∈
        (VerifyPresentation wPresentation ["age", "income"] [] "n1").Errors) ∧
    VError.missingRequiredClaim "age" ∉
      (VerifyPresentation wPresentation ["age", "income"] [] "n1").Errors :=
  ⟨(c8_missing_required_claims wPresentation ["age", "income"] [] "n1" rfl).1 "income"
      (by decide) (by decide),
    (c8_missing_required_claims wPresentation ["age", "income"] [] "n1" rfl).2 "age"
      (by decide)⟩

end BBSSpec

